import Mathlib

/-!
Shallow embedding of the byfl counter-aggregation and reporting engine
(`lib/byfl/byfl.cpp`) together with theorems checking its natural-language
specification.

Counters in the source are `uint64_t` with unchecked addition; the spec
states that 64-bit wraparound is accepted but not expected within a run, so
counter fields are embedded as `Nat`.  `difference` is `uint64_t`
subtraction in the source; it is embedded as truncated `Nat` subtraction,
which agrees with the machine subtraction exactly under the documented
precondition (minuend pointwise at least the subtrahend) that holds at every
call site and is proved where relevant below.
-/

namespace Byfl

/-- The different ways a basic block can terminate (`bb_end_t`). -/
inductive bb_end_t where
  | BB_NOT_END
  | BB_END_UNCOND
  | BB_END_COND
deriving DecidableEq, Repr

/-- All of the engine's counters in a single structure (`ByteFlopCounters`),
with the 26 `uint64_t` fields of the source, in source order. -/
@[ext]
structure ByteFlopCounters where
  loads : Nat
  stores : Nat
  load_ins : Nat
  load_float_ins : Nat
  load_double_ins : Nat
  load_int8_ins : Nat
  load_int16_ins : Nat
  load_int32_ins : Nat
  load_int64_ins : Nat
  load_ptr_ins : Nat
  load_other_type_ins : Nat
  store_ins : Nat
  store_float_ins : Nat
  store_double_ins : Nat
  store_int8_ins : Nat
  store_int16_ins : Nat
  store_int32_ins : Nat
  store_int64_ins : Nat
  store_ptr_ins : Nat
  store_other_type_ins : Nat
  flops : Nat
  fp_bits : Nat
  ops : Nat
  op_bits : Nat
  cond_brs : Nat
  b_blocks : Nat
deriving DecidableEq, Repr

namespace ByteFlopCounters

/-- The `ByteFlopCounters` constructor called with all default (zero)
arguments, i.e. an all-zero counter set. -/
def zero : ByteFlopCounters where
  loads := 0
  stores := 0
  load_ins := 0
  load_float_ins := 0
  load_double_ins := 0
  load_int8_ins := 0
  load_int16_ins := 0
  load_int32_ins := 0
  load_int64_ins := 0
  load_ptr_ins := 0
  load_other_type_ins := 0
  store_ins := 0
  store_float_ins := 0
  store_double_ins := 0
  store_int8_ins := 0
  store_int16_ins := 0
  store_int32_ins := 0
  store_int64_ins := 0
  store_ptr_ins := 0
  store_other_type_ins := 0
  flops := 0
  fp_bits := 0
  ops := 0
  op_bits := 0
  cond_brs := 0
  b_blocks := 0

/-- `ByteFlopCounters::accumulate(ByteFlopCounters* other)`: accumulate
another counter set's values into our counters, field by field. -/
def accumulate (c other : ByteFlopCounters) : ByteFlopCounters where
  loads := c.loads + other.loads
  stores := c.stores + other.stores
  load_ins := c.load_ins + other.load_ins
  load_float_ins := c.load_float_ins + other.load_float_ins
  load_double_ins := c.load_double_ins + other.load_double_ins
  load_int8_ins := c.load_int8_ins + other.load_int8_ins
  load_int16_ins := c.load_int16_ins + other.load_int16_ins
  load_int32_ins := c.load_int32_ins + other.load_int32_ins
  load_int64_ins := c.load_int64_ins + other.load_int64_ins
  load_ptr_ins := c.load_ptr_ins + other.load_ptr_ins
  load_other_type_ins := c.load_other_type_ins + other.load_other_type_ins
  store_ins := c.store_ins + other.store_ins
  store_float_ins := c.store_float_ins + other.store_float_ins
  store_double_ins := c.store_double_ins + other.store_double_ins
  store_int8_ins := c.store_int8_ins + other.store_int8_ins
  store_int16_ins := c.store_int16_ins + other.store_int16_ins
  store_int32_ins := c.store_int32_ins + other.store_int32_ins
  store_int64_ins := c.store_int64_ins + other.store_int64_ins
  store_ptr_ins := c.store_ptr_ins + other.store_ptr_ins
  store_other_type_ins := c.store_other_type_ins + other.store_other_type_ins
  flops := c.flops + other.flops
  fp_bits := c.fp_bits + other.fp_bits
  ops := c.ops + other.ops
  op_bits := c.op_bits + other.op_bits
  cond_brs := c.cond_brs + other.cond_brs
  b_blocks := c.b_blocks + other.b_blocks

/-- `ByteFlopCounters::difference`: return the field-by-field difference of
our counters and another set of counters. -/
def difference (c other : ByteFlopCounters) : ByteFlopCounters where
  loads := c.loads - other.loads
  stores := c.stores - other.stores
  load_ins := c.load_ins - other.load_ins
  load_float_ins := c.load_float_ins - other.load_float_ins
  load_double_ins := c.load_double_ins - other.load_double_ins
  load_int8_ins := c.load_int8_ins - other.load_int8_ins
  load_int16_ins := c.load_int16_ins - other.load_int16_ins
  load_int32_ins := c.load_int32_ins - other.load_int32_ins
  load_int64_ins := c.load_int64_ins - other.load_int64_ins
  load_ptr_ins := c.load_ptr_ins - other.load_ptr_ins
  load_other_type_ins := c.load_other_type_ins - other.load_other_type_ins
  store_ins := c.store_ins - other.store_ins
  store_float_ins := c.store_float_ins - other.store_float_ins
  store_double_ins := c.store_double_ins - other.store_double_ins
  store_int8_ins := c.store_int8_ins - other.store_int8_ins
  store_int16_ins := c.store_int16_ins - other.store_int16_ins
  store_int32_ins := c.store_int32_ins - other.store_int32_ins
  store_int64_ins := c.store_int64_ins - other.store_int64_ins
  store_ptr_ins := c.store_ptr_ins - other.store_ptr_ins
  store_other_type_ins := c.store_other_type_ins - other.store_other_type_ins
  flops := c.flops - other.flops
  fp_bits := c.fp_bits - other.fp_bits
  ops := c.ops - other.ops
  op_bits := c.op_bits - other.op_bits
  cond_brs := c.cond_brs - other.cond_brs
  b_blocks := c.b_blocks - other.b_blocks

/-- `ByteFlopCounters::reset()`: reset all counters to zero (embedded as
returning the zero counter set rather than mutating in place). -/
def reset (_c : ByteFlopCounters) : ByteFlopCounters := zero

/-- Pointwise order on counter sets: every field of `c` is at most the
corresponding field of `d` (the precondition under which `difference` is
exact). -/
def le (c d : ByteFlopCounters) : Prop :=
  c.loads ≤ d.loads ∧ c.stores ≤ d.stores ∧
  c.load_ins ≤ d.load_ins ∧ c.load_float_ins ≤ d.load_float_ins ∧
  c.load_double_ins ≤ d.load_double_ins ∧ c.load_int8_ins ≤ d.load_int8_ins ∧
  c.load_int16_ins ≤ d.load_int16_ins ∧ c.load_int32_ins ≤ d.load_int32_ins ∧
  c.load_int64_ins ≤ d.load_int64_ins ∧ c.load_ptr_ins ≤ d.load_ptr_ins ∧
  c.load_other_type_ins ≤ d.load_other_type_ins ∧
  c.store_ins ≤ d.store_ins ∧ c.store_float_ins ≤ d.store_float_ins ∧
  c.store_double_ins ≤ d.store_double_ins ∧ c.store_int8_ins ≤ d.store_int8_ins ∧
  c.store_int16_ins ≤ d.store_int16_ins ∧ c.store_int32_ins ≤ d.store_int32_ins ∧
  c.store_int64_ins ≤ d.store_int64_ins ∧ c.store_ptr_ins ≤ d.store_ptr_ins ∧
  c.store_other_type_ins ≤ d.store_other_type_ins ∧
  c.flops ≤ d.flops ∧ c.fp_bits ≤ d.fp_bits ∧
  c.ops ≤ d.ops ∧ c.op_bits ≤ d.op_bits ∧
  c.cond_brs ≤ d.cond_brs ∧ c.b_blocks ≤ d.b_blocks

instance (c d : ByteFlopCounters) : Decidable (le c d) := by
  unfold le; infer_instance

end ByteFlopCounters

/-- The per-thread scalar tallies: the 24 `__thread uint64_t bf_*_count`
variables of the source that get reset at the end of every basic block. -/
@[ext]
structure ThreadTallies where
  bf_load_count : Nat
  bf_store_count : Nat
  bf_load_ins_count : Nat
  bf_load_float_ins_count : Nat
  bf_load_double_ins_count : Nat
  bf_load_int8_ins_count : Nat
  bf_load_int16_ins_count : Nat
  bf_load_int32_ins_count : Nat
  bf_load_int64_ins_count : Nat
  bf_load_ptr_ins_count : Nat
  bf_load_other_type_ins_count : Nat
  bf_store_ins_count : Nat
  bf_store_float_ins_count : Nat
  bf_store_double_ins_count : Nat
  bf_store_int8_ins_count : Nat
  bf_store_int16_ins_count : Nat
  bf_store_int32_ins_count : Nat
  bf_store_int64_ins_count : Nat
  bf_store_ptr_ins_count : Nat
  bf_store_other_type_ins_count : Nat
  bf_flop_count : Nat
  bf_fp_bits_count : Nat
  bf_op_count : Nat
  bf_op_bits_count : Nat
deriving DecidableEq, Repr

namespace ThreadTallies

/-- All thread-local scalar tallies zero (their static initial value, and
the value modelled to hold again right after each flush). -/
def zero : ThreadTallies where
  bf_load_count := 0
  bf_store_count := 0
  bf_load_ins_count := 0
  bf_load_float_ins_count := 0
  bf_load_double_ins_count := 0
  bf_load_int8_ins_count := 0
  bf_load_int16_ins_count := 0
  bf_load_int32_ins_count := 0
  bf_load_int64_ins_count := 0
  bf_load_ptr_ins_count := 0
  bf_load_other_type_ins_count := 0
  bf_store_ins_count := 0
  bf_store_float_ins_count := 0
  bf_store_double_ins_count := 0
  bf_store_int8_ins_count := 0
  bf_store_int16_ins_count := 0
  bf_store_int32_ins_count := 0
  bf_store_int64_ins_count := 0
  bf_store_ptr_ins_count := 0
  bf_store_other_type_ins_count := 0
  bf_flop_count := 0
  bf_fp_bits_count := 0
  bf_op_count := 0
  bf_op_bits_count := 0

/-- Modelled from the spec: the instrumented target increments the
thread-local scalar tallies directly at each instrumented operation
("incremented inline at each instrumented access"); one increment event adds
a parallel set of deltas to the scalars.  The incrementing code is emitted
by the compiler instrumentation pass, which is not part of the runtime
library source. -/
def incr (t d : ThreadTallies) : ThreadTallies where
  bf_load_count := t.bf_load_count + d.bf_load_count
  bf_store_count := t.bf_store_count + d.bf_store_count
  bf_load_ins_count := t.bf_load_ins_count + d.bf_load_ins_count
  bf_load_float_ins_count := t.bf_load_float_ins_count + d.bf_load_float_ins_count
  bf_load_double_ins_count := t.bf_load_double_ins_count + d.bf_load_double_ins_count
  bf_load_int8_ins_count := t.bf_load_int8_ins_count + d.bf_load_int8_ins_count
  bf_load_int16_ins_count := t.bf_load_int16_ins_count + d.bf_load_int16_ins_count
  bf_load_int32_ins_count := t.bf_load_int32_ins_count + d.bf_load_int32_ins_count
  bf_load_int64_ins_count := t.bf_load_int64_ins_count + d.bf_load_int64_ins_count
  bf_load_ptr_ins_count := t.bf_load_ptr_ins_count + d.bf_load_ptr_ins_count
  bf_load_other_type_ins_count := t.bf_load_other_type_ins_count + d.bf_load_other_type_ins_count
  bf_store_ins_count := t.bf_store_ins_count + d.bf_store_ins_count
  bf_store_float_ins_count := t.bf_store_float_ins_count + d.bf_store_float_ins_count
  bf_store_double_ins_count := t.bf_store_double_ins_count + d.bf_store_double_ins_count
  bf_store_int8_ins_count := t.bf_store_int8_ins_count + d.bf_store_int8_ins_count
  bf_store_int16_ins_count := t.bf_store_int16_ins_count + d.bf_store_int16_ins_count
  bf_store_int32_ins_count := t.bf_store_int32_ins_count + d.bf_store_int32_ins_count
  bf_store_int64_ins_count := t.bf_store_int64_ins_count + d.bf_store_int64_ins_count
  bf_store_ptr_ins_count := t.bf_store_ptr_ins_count + d.bf_store_ptr_ins_count
  bf_store_other_type_ins_count := t.bf_store_other_type_ins_count + d.bf_store_other_type_ins_count
  bf_flop_count := t.bf_flop_count + d.bf_flop_count
  bf_fp_bits_count := t.bf_fp_bits_count + d.bf_fp_bits_count
  bf_op_count := t.bf_op_count + d.bf_op_count
  bf_op_bits_count := t.bf_op_bits_count + d.bf_op_bits_count

/-- The field-by-field sum of a list of increment deltas (the "exact sum of
the increments" the spec speaks about). -/
def sumList (l : List ThreadTallies) : ThreadTallies :=
  l.foldr incr zero

/-- Applying a sequence of increment events in order. -/
def applyIncrements (incs : List ThreadTallies) (t : ThreadTallies) : ThreadTallies :=
  incs.foldl incr t

end ThreadTallies

/-- The 26 arguments that `bf_accumulate_bb_tallies` passes to
`ByteFlopCounters::accumulate`: the 24 thread-local scalars plus
`uint64_t(end_of_basic_block == BB_END_COND)` for `cond_brs` and
`uint64_t(end_of_basic_block != BB_NOT_END)` for `b_blocks`, packaged as a
counter set. -/
def tallies_as_counters (t : ThreadTallies) (end_of_basic_block : bb_end_t) :
    ByteFlopCounters where
  loads := t.bf_load_count
  stores := t.bf_store_count
  load_ins := t.bf_load_ins_count
  load_float_ins := t.bf_load_float_ins_count
  load_double_ins := t.bf_load_double_ins_count
  load_int8_ins := t.bf_load_int8_ins_count
  load_int16_ins := t.bf_load_int16_ins_count
  load_int32_ins := t.bf_load_int32_ins_count
  load_int64_ins := t.bf_load_int64_ins_count
  load_ptr_ins := t.bf_load_ptr_ins_count
  load_other_type_ins := t.bf_load_other_type_ins_count
  store_ins := t.bf_store_ins_count
  store_float_ins := t.bf_store_float_ins_count
  store_double_ins := t.bf_store_double_ins_count
  store_int8_ins := t.bf_store_int8_ins_count
  store_int16_ins := t.bf_store_int16_ins_count
  store_int32_ins := t.bf_store_int32_ins_count
  store_int64_ins := t.bf_store_int64_ins_count
  store_ptr_ins := t.bf_store_ptr_ins_count
  store_other_type_ins := t.bf_store_other_type_ins_count
  flops := t.bf_flop_count
  fp_bits := t.bf_fp_bits_count
  ops := t.bf_op_count
  op_bits := t.bf_op_bits_count
  cond_brs := if end_of_basic_block = bb_end_t.BB_END_COND then 1 else 0
  b_blocks := if end_of_basic_block ≠ bb_end_t.BB_NOT_END then 1 else 0

/-- Modelled from the spec: the external Symbol Interner
(`bf_string_to_symbol`, implemented outside this source region)
canonicalizes name strings so that identical names share one
representative; at the level of string values it is the identity.  The
source also applies it to a possibly-null pointer, where it maps null to
null (modelled by mapping it over an `Option`). -/
def bf_string_to_symbol (nonunique : String) : String := nonunique

/-- `CallStack`: maintain a function call stack.  `complete_call_stack` is
the stack of combined function-and-ancestor names, with the top of the
stack at the head of the list; `max_depth` is the source's field of the
same name. -/
@[ext]
structure CallStack where
  complete_call_stack : List String
  max_depth : Nat
deriving DecidableEq, Repr

namespace CallStack

/-- The `CallStack` constructor: empty stack and `max_depth = 0` (it also
sets the global `bf_func_and_parents` to "-"). -/
def init : CallStack := ⟨[], 0⟩

/-- `CallStack::push_function`: push both the current function name and the
combined name of the function and its call stack; return the interned
combined name.  On an empty stack the combined name is the function name
itself and `max_depth` is assigned 1; otherwise the combined name is the
function name, a space, and the previous top, and `max_depth` is updated
only when the new depth exceeds it. -/
def push_function (cs : CallStack) (funcname : String) : String × CallStack :=
  match cs.complete_call_stack with
  | [] =>
      let combined_name := funcname
      let unique_combined_name := bf_string_to_symbol combined_name
      (unique_combined_name,
       { complete_call_stack := [unique_combined_name], max_depth := 1 })
  | ancestors_names :: rest =>
      let combined_name := funcname ++ " " ++ ancestors_names
      let current_stack_depth := (ancestors_names :: rest).length + 1
      let unique_combined_name := bf_string_to_symbol combined_name
      (unique_combined_name,
       { complete_call_stack := unique_combined_name :: ancestors_names :: rest,
         max_depth :=
           if current_stack_depth > cs.max_depth then current_stack_depth
           else cs.max_depth })

/-- `CallStack::pop_function`: pop a function name from the call stack and
return the new top (function + ancestors), or the sentinel "[EMPTY]" when
the stack is now empty.  Popping an already-empty stack is
`vector::pop_back` on an empty vector, undefined in the source, embedded as
`none`. -/
def pop_function (cs : CallStack) : Option (String × CallStack) :=
  match cs.complete_call_stack with
  | [] => none
  | _ :: rest =>
      match rest with
      | [] => some ("[EMPTY]", { complete_call_stack := [], max_depth := cs.max_depth })
      | top :: _ => some (top, { complete_call_stack := rest, max_depth := cs.max_depth })

end CallStack

namespace CounterMemoryPool

/-- `CounterMemoryPool::allocate`: pop a counter set from the free list and
reset it, or construct a fresh (zero-initialized) one when the list is
empty.  The back of the free-list vector is the head of the list here. -/
def allocate (freelist : List ByteFlopCounters) :
    ByteFlopCounters × List ByteFlopCounters :=
  match freelist with
  | [] => (ByteFlopCounters.zero, [])
  | newBFC :: rest => (newBFC.reset, rest)

/-- `CounterMemoryPool::deallocate`: return a counter set to the free
list. -/
def deallocate (oldBFC : ByteFlopCounters)
    (freelist : List ByteFlopCounters) : List ByteFlopCounters :=
  oldBFC :: freelist

end CounterMemoryPool

/-- Update of `user_defined_totals()` for one terminating basic block: look
up the partition tag; on a miss insert a copy of the current block's
counters (`new ByteFlopCounters(*current_bb)`), otherwise accumulate into
the existing entry.  (The source compares the result of
`user_defined_totals().find` against `per_func_totals().end()`; with the
underlying unordered map every past-the-end iterator is the same null
sentinel, so the comparison is a not-found test on `user_defined_totals`.) -/
def user_defined_update (m : List (String × ByteFlopCounters))
    (partition : String) (current_bb : ByteFlopCounters) :
    List (String × ByteFlopCounters) :=
  match m.lookup partition with
  | none => m ++ [(partition, current_bb)]
  | some _ =>
      m.map (fun p => if p.1 = partition then (p.1, p.2.accumulate current_bb) else p)

/-- The engine's process-wide mutable state: the per-thread stack of
basic-block counter frames (`bb_totals()`, top at the head), the counter
memory pool's free list, the global and previously-reported totals, the
decimation count `num_merged`, the partition and per-function tables, the
function-invocation tallies (`func_call_tallies()`, an unordered map whose
`operator[]` default-constructs missing values to 0, embedded as a total
function), the call stack, the global `bf_func_and_parents`, and the
`showed_header` static of `bf_report_bb_tallies`. -/
structure EngineState where
  bb_totals : List ByteFlopCounters
  freelist : List ByteFlopCounters
  global_totals : ByteFlopCounters
  prev_global_totals : ByteFlopCounters
  num_merged : Nat
  user_defined_totals : List (String × ByteFlopCounters)
  per_func_totals : List (String × ByteFlopCounters)
  func_call_tallies : String → Nat
  call_stack : CallStack
  bf_func_and_parents : String
  showed_header : Bool

/-- The statically initialized state of all the engine's globals, before
`initialize_byfl` runs. -/
def static_state : EngineState where
  bb_totals := []
  freelist := []
  global_totals := ByteFlopCounters.zero
  prev_global_totals := ByteFlopCounters.zero
  num_merged := 0
  user_defined_totals := []
  per_func_totals := []
  func_call_tallies := fun _ => 0
  call_stack := CallStack.init
  bf_func_and_parents := "-"
  showed_header := false

/-- `bf_push_basic_block`: push a new basic block onto the stack, borrowing
a (zeroed) counter set from the memory pool. -/
def bf_push_basic_block (s : EngineState) : EngineState :=
  let r := CounterMemoryPool.allocate s.freelist
  { s with bb_totals := r.1 :: s.bb_totals, freelist := r.2 }

/-- `initialize_byfl`: construct the call stack and the counter memory pool
and push the first basic-block frame. -/
def initialize_byfl : EngineState :=
  bf_push_basic_block static_state

/-- `bf_pop_basic_block`: pop and discard the top basic block off the
stack, returning its counter set to the pool.  `back()`/`pop_back()` on an
empty vector is undefined in the source, embedded as `none`. -/
def bf_pop_basic_block (s : EngineState) : Option EngineState :=
  match s.bb_totals with
  | [] => none
  | top :: rest =>
      some { s with freelist := CounterMemoryPool.deallocate top s.freelist,
                    bb_totals := rest }

/-- `bf_incr_func_tally`: tally the number of calls to each function, by
bumping the interned bare name's entry by one. -/
def bf_incr_func_tally (funcname : String) (s : EngineState) : EngineState :=
  let unique_name := bf_string_to_symbol funcname
  { s with func_call_tallies :=
      fun n => if n = unique_name then s.func_call_tallies n + 1
               else s.func_call_tallies n }

/-- `bf_push_function`: push a function name onto the call stack, increment
the invocation count of the call stack as a whole (the combined name), and
ensure the individual function name also exists in the hash table
(`func_call_tallies()[unique_name] += 0`, which default-creates the entry
at 0 and changes no tally value, hence is invisible in the value-level
embedding of the map). -/
def bf_push_function (funcname : String) (s : EngineState) : EngineState :=
  let r := s.call_stack.push_function funcname
  let unique_combined_name := r.1
  { s with call_stack := r.2,
           bf_func_and_parents := unique_combined_name,
           func_call_tallies :=
             fun n => if n = unique_combined_name then s.func_call_tallies n + 1
                      else s.func_call_tallies n }

/-- `bf_pop_function`: pop the top function name from the call stack and
store the new top in `bf_func_and_parents`. -/
def bf_pop_function (s : EngineState) : Option EngineState :=
  (s.call_stack.pop_function).map
    (fun r => { s with call_stack := r.2, bf_func_and_parents := r.1 })

/-- The three outcomes of `suppress_output`'s configuration parse: show all
output, suppress all output, or (for a malformed `BYFL_OUTPUT_IF` with no
`=`) print a diagnostic to `cerr` and `exit(1)` — the `FATAL` outcome, which
terminates the process with a non-zero status before any instrumentation
output is emitted. -/
inductive OutputDecision where
  | SHOW
  | SUPPRESS
  | FATAL
deriving DecidableEq, Repr

/-- The split that `suppress_output` performs with
`find_first_of('=')`/`substr`: the text before the first `=` and the text
after it, or `none` when the value holds no `=` (`eqpos == string::npos`).
Environment strings are embedded as lists of characters. -/
def split_first_eq : List Char → Option (List Char × List Char)
  | [] => none
  | c :: rest =>
      if c = '=' then some ([], rest)
      else (split_first_eq rest).map (fun p => (c :: p.1, p.2))

/-- `suppress_output`: parse the `BYFL_OUTPUT_IF` environment variable on
first invocation.  Unset means show all output; a defined value must be of
the form `VAR=VALUE`, otherwise the parse is a fatal error; with
`VAR=VALUE`, output is shown exactly when `VAR`'s current value (the empty
string when `VAR` is unset) equals `VALUE`.  The environment is the
`getenv` function.  (The embedding assumes `all_constructors_called`; the
memoizing `static` is stateless here because the function of the
environment is pure.) -/
def suppress_output (getenv : List Char → Option (List Char)) : OutputDecision :=
  match getenv "BYFL_OUTPUT_IF".toList with
  | none => OutputDecision.SHOW
  | some value =>
      match split_first_eq value with
      | none => OutputDecision.FATAL
      | some (output_var, output_value) =>
          let actual_value := (getenv output_var).getD []
          if output_value = actual_value then OutputDecision.SHOW
          else OutputDecision.SUPPRESS

/-- `bf_accumulate_bb_tallies`: accumulate the current thread-local counter
variables (`bf_*_count`) into the current basic block's counters; at the
end of the basic block, also transfer the current basic block's counters to
the global counters and, if `bf_categorize_counters` (the overridable
categorization hook, `NULL` by default) returns a tag, to the user-defined
partition's counters.  `bb_totals().back()` on an empty stack is undefined
in the source, embedded as `none`. -/
def bf_accumulate_bb_tallies (bf_categorize_counters : Option String)
    (t : ThreadTallies) (end_of_basic_block : bb_end_t) (s : EngineState) :
    Option EngineState :=
  match s.bb_totals with
  | [] => none
  | current_bb0 :: rest =>
      let current_bb := current_bb0.accumulate (tallies_as_counters t end_of_basic_block)
      if end_of_basic_block ≠ bb_end_t.BB_NOT_END then
        let global_totals := s.global_totals.accumulate current_bb
        match bf_categorize_counters.map bf_string_to_symbol with
        | none =>
            some { s with bb_totals := current_bb :: rest,
                          global_totals := global_totals }
        | some partition =>
            some { s with bb_totals := current_bb :: rest,
                          global_totals := global_totals,
                          user_defined_totals :=
                            user_defined_update s.user_defined_totals partition current_bb }
      else
        some { s with bb_totals := current_bb :: rest }

/-- `bf_reset_bb_tallies`: reset the current basic block's tallies in
place.  `bb_totals().back()` on an empty stack is undefined in the source,
embedded as `none`. -/
def bf_reset_bb_tallies (s : EngineState) : Option EngineState :=
  match s.bb_totals with
  | [] => none
  | top :: rest => some { s with bb_totals := top.reset :: rest }

/-- `bf_report_bb_tallies`: report what has been measured for the current
basic block.  Nothing happens when output is suppressed.  Otherwise the
header is printed once, and when `++num_merged >= bf_bb_merge` the
difference between the current global counters and the previously saved
ones is printed (returned as `some` record here), `num_merged` is reset to
zero and `prev_global_totals = global_totals` is copied. -/
def bf_report_bb_tallies (suppressed : Bool) (bf_bb_merge : Nat)
    (s : EngineState) : EngineState × Option ByteFlopCounters :=
  if suppressed then (s, none)
  else
    let s := { s with showed_header := true }
    if s.num_merged + 1 ≥ bf_bb_merge then
      ({ s with num_merged := 0, prev_global_totals := s.global_totals },
       some (s.global_totals.difference s.prev_global_totals))
    else
      ({ s with num_merged := s.num_merged + 1 }, none)

/-- The global-totals fallback in `RunAtEndOfProgram::~RunAtEndOfProgram`:
if `global_totals.b_blocks == 0` the live thread-local scalars are
accumulated into the global totals (with literal `0, 0` for the conditional
branch and basic-block arguments — exactly the packaging of the scalars
with `BB_NOT_END`); then, if `global_totals.b_blocks == 0` still holds, the
global counts are reconstructed by accumulating every per-function entry,
after which `b_blocks` and `cond_brs` are set back to zero. -/
def end_of_program_totals (t : ThreadTallies)
    (per_func_totals : List (String × ByteFlopCounters))
    (global_totals : ByteFlopCounters) : ByteFlopCounters :=
  let g1 :=
    if global_totals.b_blocks = 0 then
      global_totals.accumulate (tallies_as_counters t bb_end_t.BB_NOT_END)
    else global_totals
  if g1.b_blocks = 0 then
    let g2 := per_func_totals.foldl (fun acc p => acc.accumulate p.2) g1
    { g2 with b_blocks := 0, cond_brs := 0 }
  else g1

/-- The same shutdown fallback as the specification words it, for
comparison with `end_of_program_totals` (which follows the source): here
the per-function reconstruction runs only if the global totals are still
empty — all fields zero — after the scalar fold. -/
def end_of_program_totals_claim (t : ThreadTallies)
    (per_func_totals : List (String × ByteFlopCounters))
    (global_totals : ByteFlopCounters) : ByteFlopCounters :=
  let g1 :=
    if global_totals.b_blocks = 0 then
      global_totals.accumulate (tallies_as_counters t bb_end_t.BB_NOT_END)
    else global_totals
  if g1 = ByteFlopCounters.zero then
    let g2 := per_func_totals.foldl (fun acc p => acc.accumulate p.2) g1
    { g2 with b_blocks := 0, cond_brs := 0 }
  else g1

/-- The derived-ratio lines that `report_totals` prints, in source order,
each as the pair of its label and the denominator of the division it
prints, emitted under exactly the conditions the source tests.  Inputs
besides the counter totals: the feature flags `bf_all_ops`,
`bf_unique_bytes` and `bf_vectors`; whether a partition tag was passed
(`partition != NULL`); the vector-operation count delivered by
`bf_get_vector_statistics` when `bf_vectors` is set (`num_vec_ops` stays 0
otherwise); and the two unique-byte sources `reuse_unique` (from
`bf_get_reuse_distance`) and `tally_unique` (from
`bf_tally_unique_addresses`), from which `global_unique_bytes` is chosen as
in the source. -/
def report_totals_ratio_lines (bf_all_ops bf_unique_bytes bf_vectors : Bool)
    (partition : Bool) (counter_totals : ByteFlopCounters)
    (vec_num_ops reuse_unique tally_unique : Nat) : List (String × Nat) :=
  let global_mem_ops := counter_totals.load_ins + counter_totals.store_ins
  let global_unique_bytes :=
    if reuse_unique > 0 then reuse_unique
    else if bf_unique_bytes ∧ ¬partition then tally_unique else 0
  let num_vec_ops := if bf_vectors then vec_num_ops else 0
  (if bf_vectors ∧ num_vec_ops > 0 then
     [("elements per vector", num_vec_ops), ("bits per element", num_vec_ops)]
   else []) ++
  [("bytes loaded per byte stored", counter_totals.stores)] ++
  (if bf_all_ops then
     (if counter_totals.load_ins > 0 then
        [("integer ops per load instruction", counter_totals.load_ins)]
      else []) ++
     (if global_mem_ops > 0 then
        [("bits loaded/stored per memory op", global_mem_ops)]
      else [])
   else []) ++
  (if counter_totals.cond_brs > 0 then
     (if counter_totals.flops > 0 then
        [("flops per conditional/indirect branch", counter_totals.cond_brs)]
      else []) ++
     (if counter_totals.ops > 0 then
        [("ops per conditional/indirect branch", counter_totals.cond_brs)]
      else []) ++
     (if num_vec_ops > 0 then
        [("vector ops per conditional/indirect branch", counter_totals.cond_brs)]
      else [])
   else []) ++
  (if num_vec_ops > 0 then
     (if counter_totals.flops > 0 then
        [("vector operations (FP & int) per flop", counter_totals.flops)]
      else []) ++
     (if counter_totals.ops > 0 then
        [("vector operations per integer op", counter_totals.ops)]
      else [])
   else []) ++
  (if counter_totals.flops > 0 then
     [("bytes per flop", counter_totals.flops),
      ("bits per flop bit", counter_totals.fp_bits)]
   else []) ++
  (if counter_totals.ops > 0 then
     [("bytes per integer op", counter_totals.ops),
      ("bits per integer op bit", counter_totals.op_bits)]
   else []) ++
  (if bf_unique_bytes ∧ (counter_totals.flops > 0 ∨ counter_totals.ops > 0) then
     (if counter_totals.flops > 0 then
        [("unique bytes per flop", counter_totals.flops),
         ("unique bits per flop bit", counter_totals.fp_bits)]
      else []) ++
     (if counter_totals.ops > 0 then
        [("unique bytes per integer op", counter_totals.ops),
         ("unique bits per integer op bit", counter_totals.op_bits)]
      else [])
   else []) ++
  (if bf_unique_bytes ∧ ¬partition then
     [("bytes per unique byte", global_unique_bytes)]
   else [])

/-- The field-by-field sum of a list of counter sets, via `accumulate`. -/
def sumCounters (l : List ByteFlopCounters) : ByteFlopCounters :=
  l.foldr (fun bb acc => bb.accumulate acc) ByteFlopCounters.zero

/-- A decimator run: each event is the counter set of one terminated basic
block; it is accumulated into the global totals (as
`bf_accumulate_bb_tallies` does at every basic-block end — "GlobalTotals
keeps accumulating") and then `bf_report_bb_tallies` is called with output
not suppressed.  The emitted delta records are collected in order. -/
def decim_run (bf_bb_merge : Nat) :
    List ByteFlopCounters → EngineState → EngineState × List ByteFlopCounters
  | [], s => (s, [])
  | bb :: rest, s =>
      let s1 := { s with global_totals := s.global_totals.accumulate bb }
      let r := bf_report_bb_tallies false bf_bb_merge s1
      let r2 := decim_run bf_bb_merge rest r.1
      (r2.1, r.2.toList ++ r2.2)

/-- The engine entry points the instrumented target may call after
initialization, as events of a run. -/
inductive EngineEvent where
  | push_bb
  | pop_bb
  | accum (t : ThreadTallies) (e : bb_end_t)
  | reset_bb
  | push_fn (funcname : String)
  | pop_fn
  | incr_tally (funcname : String)

/-- One engine step: dispatch an event to the corresponding entry point.
`hook` is the (link-time overridable) `bf_categorize_counters` result,
constant over a run. -/
def engine_step (hook : Option String) :
    EngineEvent → EngineState → Option EngineState
  | EngineEvent.push_bb, s => some (bf_push_basic_block s)
  | EngineEvent.pop_bb, s => bf_pop_basic_block s
  | EngineEvent.accum t e, s => bf_accumulate_bb_tallies hook t e s
  | EngineEvent.reset_bb, s => bf_reset_bb_tallies s
  | EngineEvent.push_fn f, s => some (bf_push_function f s)
  | EngineEvent.pop_fn, s => bf_pop_function s
  | EngineEvent.incr_tally f, s => some (bf_incr_func_tally f s)

/-- Run a sequence of engine events; `none` as soon as a step hits an
operation that is undefined in the source (an empty-stack access). -/
def engine_run (hook : Option String) :
    List EngineEvent → EngineState → Option EngineState
  | [], s => some s
  | ev :: rest, s => (engine_step hook ev s).bind (engine_run hook rest)

/-- Stack discipline of an event sequence, starting from `bb_depth` open
basic-block frames and `fn_depth` entries on the call stack: every
operation that reads or removes the top of one of the two per-thread stacks
finds it non-empty, i.e. every pop is preceded by a matching push (with
initialization providing the first basic-block frame). -/
def wellFormedFrom (bb_depth fn_depth : Nat) : List EngineEvent → Bool
  | [] => true
  | EngineEvent.push_bb :: rest => wellFormedFrom (bb_depth + 1) fn_depth rest
  | EngineEvent.pop_bb :: rest =>
      decide (0 < bb_depth) && wellFormedFrom (bb_depth - 1) fn_depth rest
  | EngineEvent.accum _ _ :: rest =>
      decide (0 < bb_depth) && wellFormedFrom bb_depth fn_depth rest
  | EngineEvent.reset_bb :: rest =>
      decide (0 < bb_depth) && wellFormedFrom bb_depth fn_depth rest
  | EngineEvent.push_fn _ :: rest => wellFormedFrom bb_depth (fn_depth + 1) rest
  | EngineEvent.pop_fn :: rest =>
      decide (0 < fn_depth) && wellFormedFrom bb_depth (fn_depth - 1) rest
  | EngineEvent.incr_tally _ :: rest => wellFormedFrom bb_depth fn_depth rest

/-- The routing invariant of a run whose categorization hook constantly
returns `tag`: as long as no basic block has terminated, the partition
table is empty and the global totals are zero; afterwards the table has the
single entry for `tag`, whose accumulated counters equal the global totals
field by field.  A run that hit an undefined (empty-stack) access makes no
statement. -/
def partition_route_invariant (tag : String) : Option EngineState → Prop
  | none => True
  | some s =>
      (s.user_defined_totals = [] ∧ s.global_totals = ByteFlopCounters.zero) ∨
      s.user_defined_totals = [(tag, s.global_totals)]

/- ----------------------------------------------------------------- -/
/- Basic lemmas about the counter operations.                        -/
/- ----------------------------------------------------------------- -/

namespace ByteFlopCounters

theorem accumulate_zero (c : ByteFlopCounters) : c.accumulate zero = c := by
  cases c
  simp only [accumulate, zero, mk.injEq]
  omega

theorem zero_accumulate (c : ByteFlopCounters) : zero.accumulate c = c := by
  cases c
  simp only [accumulate, zero, mk.injEq]
  omega

theorem accumulate_assoc (a b c : ByteFlopCounters) :
    (a.accumulate b).accumulate c = a.accumulate (b.accumulate c) := by
  cases a; cases b; cases c
  simp only [accumulate, mk.injEq]
  omega

theorem le_refl (c : ByteFlopCounters) : le c c := by
  cases c
  simp only [le]
  omega

theorem le_accumulate_right (a b c : ByteFlopCounters) (h : le a b) :
    le a (b.accumulate c) := by
  cases a; cases b; cases c
  simp only [le, accumulate] at h ⊢
  omega

/-- Under the documented precondition `le b a`, adding back the difference
recovers the minuend: `b.accumulate (a.difference b) = a`. -/
theorem accumulate_difference_cancel (a b : ByteFlopCounters) (h : le b a) :
    b.accumulate (a.difference b) = a := by
  cases a; cases b
  simp only [le] at h
  simp only [accumulate, difference, mk.injEq]
  omega

end ByteFlopCounters

namespace ThreadTallies

theorem incr_zero (t : ThreadTallies) : t.incr zero = t := by
  cases t
  simp only [incr, zero, mk.injEq]
  omega

theorem zero_incr (t : ThreadTallies) : zero.incr t = t := by
  cases t
  simp only [incr, zero, mk.injEq]
  omega

theorem incr_assoc (a b c : ThreadTallies) :
    (a.incr b).incr c = a.incr (b.incr c) := by
  cases a; cases b; cases c
  simp only [incr, mk.injEq]
  omega

/-- Applying a sequence of scalar increments adds exactly their
field-by-field sum: no increment is lost and none is counted twice. -/
theorem applyIncrements_eq_incr_sumList (incs : List ThreadTallies)
    (t : ThreadTallies) : applyIncrements incs t = t.incr (sumList incs) := by
  induction incs generalizing t with
  | nil => simpa [applyIncrements, sumList] using (incr_zero t).symm
  | cons i l ih =>
      show applyIncrements l (t.incr i) = _
      rw [ih, incr_assoc]
      rfl

end ThreadTallies

theorem tallies_as_counters_zero_not_end :
    tallies_as_counters ThreadTallies.zero bb_end_t.BB_NOT_END
      = ByteFlopCounters.zero := rfl

/-- A pure flush (`BB_NOT_END`) with the scalars at zero changes nothing:
the building block for "an immediately repeated flush adds nothing". -/
theorem bf_accumulate_zero_not_end (hook : Option String) (s2 : EngineState)
    (cb : ByteFlopCounters) (rest : List ByteFlopCounters)
    (h : s2.bb_totals = cb :: rest) :
    bf_accumulate_bb_tallies hook ThreadTallies.zero bb_end_t.BB_NOT_END s2
      = some s2 := by
  simp only [bf_accumulate_bb_tallies, h, tallies_as_counters_zero_not_end,
    ByteFlopCounters.accumulate_zero, ne_eq, not_true_eq_false, if_false,
    reduceIte]
  rw [← h]

/-- C5: with call-stack attribution, pushing functions f1, then f2, then f3
onto an initially empty per-thread call stack returns the combined key
"f3 f2 f1" (current function first, ancestors appended oldest-last); one
subsequent pop returns "f2 f1"; and popping the last remaining entry
returns the sentinel "[EMPTY]" marker. -/
theorem C5_call_stack_attribution_key (f1 f2 f3 : String) :
    ((((CallStack.init.push_function f1).2.push_function f2).2.push_function f3).1
        = f3 ++ " " ++ (f2 ++ " " ++ f1)) ∧
    (((((CallStack.init.push_function f1).2.push_function f2).2.push_function f3).2.pop_function).map
        Prod.fst = some (f2 ++ " " ++ f1)) ∧
    ((((((CallStack.init.push_function f1).2.push_function f2).2.push_function
          f3).2.pop_function).bind (fun r => r.2.pop_function)).bind
        (fun r => r.2.pop_function)).map Prod.fst = some "[EMPTY]" :=
  ⟨rfl, rfl, rfl⟩

/-- C8: the engine's `max_depth` bookkeeping at the failing input of the
claim's own example: pushing two functions reaches `max_depth = 2`, popping
both leaves it at 2, but the next push onto the now-empty stack assigns
`max_depth = 1` unconditionally — so `max_depth` decreases and no longer
equals the maximum depth the stack ever reached (the source's own comment
documents the field as "Maximum depth achieved"). -/
theorem C8_max_depth_reset_by_push_on_empty_stack :
    (((CallStack.init.push_function "f1").2.push_function "f2").2.max_depth = 2) ∧
    ((((CallStack.init.push_function "f1").2.push_function "f2").2.pop_function.bind
        (fun r => r.2.pop_function)).map (fun r => r.2.max_depth) = some 2) ∧
    ((((CallStack.init.push_function "f1").2.push_function "f2").2.pop_function.bind
        (fun r => r.2.pop_function)).map
          (fun r => (r.2.push_function "f3").2.max_depth) = some 1) :=
  ⟨rfl, rfl, rfl⟩

/-- C2: flush exactness and reset.  For any sequence of increments to the
thread-local scalar tallies (starting from the zeroed, post-flush state)
followed by one flush (`bf_accumulate_bb_tallies`), the flush succeeds on a
non-empty basic-block stack and adds exactly the field-by-field sum of the
increments into the counter set at the top of the stack — no loss and no
double counting; the two non-scalar fields receive the end-of-block flags.
The scalars are then zeroed (a reset emitted by the instrumentation after
the flush, modelled from the spec), so that an immediately repeated pure
flush (`BB_NOT_END`) with the zeroed scalars leaves the state unchanged —
it adds nothing. -/
theorem C2_flush_exactness_and_reset (hook : Option String)
    (incs : List ThreadTallies) (e : bb_end_t) (s : EngineState)
    (top : ByteFlopCounters) (rest : List ByteFlopCounters)
    (hstack : s.bb_totals = top :: rest) :
    ∃ s2 : EngineState,
      bf_accumulate_bb_tallies hook
        (ThreadTallies.applyIncrements incs ThreadTallies.zero) e s = some s2 ∧
      s2.bb_totals =
        top.accumulate (tallies_as_counters (ThreadTallies.sumList incs) e)
          :: rest ∧
      bf_accumulate_bb_tallies hook ThreadTallies.zero bb_end_t.BB_NOT_END s2
        = some s2 := by
  have hT : ThreadTallies.applyIncrements incs ThreadTallies.zero
      = ThreadTallies.sumList incs := by
    rw [ThreadTallies.applyIncrements_eq_incr_sumList, ThreadTallies.zero_incr]
  rw [hT]
  obtain ⟨s2, h1, h2⟩ : ∃ s2,
      bf_accumulate_bb_tallies hook (ThreadTallies.sumList incs) e s = some s2 ∧
      s2.bb_totals =
        top.accumulate (tallies_as_counters (ThreadTallies.sumList incs) e)
          :: rest := by
    cases e <;> cases hook <;>
      exact ⟨_, by simp [bf_accumulate_bb_tallies, hstack]; rfl, by rfl⟩
  exact ⟨s2, h1, h2, bf_accumulate_zero_not_end hook s2 _ rest h2⟩

/-- C2 witness: the flush applied at a concrete input — the initialized
engine state (whose basic-block stack holds the one zeroed frame) and two
increment events — adds exactly their sum to the top frame, and the
repeated pure flush adds nothing. -/
theorem C2_flush_exactness_and_reset_witness :
    ∃ s2 : EngineState,
      bf_accumulate_bb_tallies none
        (ThreadTallies.applyIncrements
          [{ ThreadTallies.zero with bf_load_count := 3, bf_flop_count := 1 },
           { ThreadTallies.zero with bf_load_count := 4 }] ThreadTallies.zero)
        bb_end_t.BB_END_UNCOND initialize_byfl = some s2 ∧
      s2.bb_totals =
        ByteFlopCounters.zero.accumulate
          (tallies_as_counters
            (ThreadTallies.sumList
              [{ ThreadTallies.zero with bf_load_count := 3, bf_flop_count := 1 },
               { ThreadTallies.zero with bf_load_count := 4 }])
            bb_end_t.BB_END_UNCOND) :: [] ∧
      bf_accumulate_bb_tallies none ThreadTallies.zero bb_end_t.BB_NOT_END s2
        = some s2 :=
  C2_flush_exactness_and_reset none
    [{ ThreadTallies.zero with bf_load_count := 3, bf_flop_count := 1 },
     { ThreadTallies.zero with bf_load_count := 4 }]
    bb_end_t.BB_END_UNCOND initialize_byfl ByteFlopCounters.zero [] rfl

/-- C7 counterexample: with live scalars loads = 5 (so the scalar fold
makes GlobalTotals non-empty) and one FunctionRecord with loads = 7, the
shutdown fallback of the source still runs the per-function reconstruction
(its condition is `b_blocks == 0` again, which the scalar fold never
changes) and yields loads = 12, whereas the claim — reconstruct only if
GlobalTotals is still empty, all fields zero, after the fold — predicts
loads = 5. -/
theorem C7_reporter_fallback_counterexample :
    ((end_of_program_totals { ThreadTallies.zero with bf_load_count := 5 }
        [("f", { ByteFlopCounters.zero with loads := 7 })]
        ByteFlopCounters.zero).loads = 12) ∧
    ((end_of_program_totals_claim { ThreadTallies.zero with bf_load_count := 5 }
        [("f", { ByteFlopCounters.zero with loads := 7 })]
        ByteFlopCounters.zero).loads = 5) ∧
    end_of_program_totals { ThreadTallies.zero with bf_load_count := 5 }
        [("f", { ByteFlopCounters.zero with loads := 7 })]
        ByteFlopCounters.zero ≠
      end_of_program_totals_claim { ThreadTallies.zero with bf_load_count := 5 }
        [("f", { ByteFlopCounters.zero with loads := 7 })]
        ByteFlopCounters.zero := by
  refine ⟨rfl, rfl, by decide⟩

/-- C7 amended: at shutdown, if `GlobalTotals.b_blocks` is non-zero nothing
is folded; if it is zero, the live thread-local scalars are folded in and
the per-function reconstruction then always also runs — its condition is
`b_blocks == 0` again, which the scalar fold leaves untouched — even when
the scalar fold made GlobalTotals non-empty; the result is the scalar fold
plus the sum of every FunctionRecord's counters, with `b_blocks` and
`cond_brs` reset to zero afterwards. -/
theorem C7_reporter_fallback_amended (t : ThreadTallies)
    (per_func : List (String × ByteFlopCounters)) (g : ByteFlopCounters) :
    (g.b_blocks ≠ 0 → end_of_program_totals t per_func g = g) ∧
    (g.b_blocks = 0 →
      end_of_program_totals t per_func g =
        { per_func.foldl (fun acc p => acc.accumulate p.2)
            (g.accumulate (tallies_as_counters t bb_end_t.BB_NOT_END)) with
          b_blocks := 0, cond_brs := 0 }) := by
  constructor
  · intro h
    simp [end_of_program_totals, h]
  · intro h
    have hb : (g.accumulate (tallies_as_counters t bb_end_t.BB_NOT_END)).b_blocks
        = 0 := by
      simp [ByteFlopCounters.accumulate, tallies_as_counters, h]
    simp [end_of_program_totals, h, hb]

/-- C7 witness: the amended characterization evaluated at the
counterexample's concrete input (zero global totals, so `b_blocks = 0`
holds). -/
theorem C7_reporter_fallback_amended_witness :
    end_of_program_totals { ThreadTallies.zero with bf_load_count := 5 }
        [("f", { ByteFlopCounters.zero with loads := 7 })]
        ByteFlopCounters.zero =
      { [("f", { ByteFlopCounters.zero with loads := 7 })].foldl
          (fun acc p => acc.accumulate p.2)
          (ByteFlopCounters.zero.accumulate
            (tallies_as_counters { ThreadTallies.zero with bf_load_count := 5 }
              bb_end_t.BB_NOT_END)) with
        b_blocks := 0, cond_brs := 0 } :=
  (C7_reporter_fallback_amended { ThreadTallies.zero with bf_load_count := 5 }
    [("f", { ByteFlopCounters.zero with loads := 7 })]
    ByteFlopCounters.zero).2 rfl

/-- Every engine operation leaves every invocation tally unchanged or
larger. -/
theorem engine_step_tallies_mono (hook : Option String) (ev : EngineEvent)
    (s s2 : EngineState) (h : engine_step hook ev s = some s2) (n : String) :
    s.func_call_tallies n ≤ s2.func_call_tallies n := by
  cases ev with
  | push_bb =>
      injection h with h
      subst h
      exact Nat.le_refl _
  | pop_bb =>
      simp only [engine_step, bf_pop_basic_block] at h
      split at h
      · exact absurd h (by simp)
      · injection h with h
        subst h
        exact Nat.le_refl _
  | accum t e =>
      simp only [engine_step, bf_accumulate_bb_tallies] at h
      split at h
      · exact absurd h (by simp)
      · split at h
        · split at h
          · injection h with h
            subst h
            exact Nat.le_refl _
          · injection h with h
            subst h
            exact Nat.le_refl _
        · injection h with h
          subst h
          exact Nat.le_refl _
  | reset_bb =>
      simp only [engine_step, bf_reset_bb_tallies] at h
      split at h
      · exact absurd h (by simp)
      · injection h with h
        subst h
        exact Nat.le_refl _
  | push_fn f =>
      injection h with h
      subst h
      simp only [bf_push_function]
      split
      · exact Nat.le_succ _
      · exact Nat.le_refl _
  | pop_fn =>
      simp only [engine_step, bf_pop_function] at h
      cases hp : s.call_stack.pop_function with
      | none => rw [hp] at h; exact absurd h (by simp)
      | some r =>
          rw [hp] at h
          simp only [Option.map] at h
          injection h with h
          subst h
          exact Nat.le_refl _
  | incr_tally f =>
      injection h with h
      subst h
      simp only [bf_incr_func_tally]
      split
      · exact Nat.le_succ _
      · exact Nat.le_refl _

/-- Invocation tallies are monotonically non-decreasing over any run of
engine events (that does not hit an undefined empty-stack access). -/
theorem engine_run_tallies_mono (hook : Option String) (evs : List EngineEvent) :
    ∀ (s : EngineState) (n : String),
      match engine_run hook evs s with
      | none => True
      | some s2 => s.func_call_tallies n ≤ s2.func_call_tallies n := by
  induction evs with
  | nil => intro s n; exact Nat.le_refl _
  | cons ev rest ih =>
      intro s n
      simp only [engine_run]
      cases hstep : engine_step hook ev s with
      | none => simp
      | some s1 =>
          simp only [Option.some_bind]
          have h1 := engine_step_tallies_mono hook ev s s1 hstep n
          have h2 := ih s1 n
          cases hrun : engine_run hook rest s1 with
          | none => simp
          | some s2 =>
              rw [hrun] at h2
              exact Nat.le_trans h1 h2

/-- C6 counterexample: two function-enter events, `f1` then `f2` called
inside it, mean one `bf_push_function` call for "f2"; yet the invocation
count recorded for "f2" is 0 — the increment went to the combined key
"f2 f1" — refuting that the recorded count for a function equals its
number of function-enter events. -/
theorem C6_invocation_tally_counterexample :
    ((bf_push_function "f2" (bf_push_function "f1" initialize_byfl)).func_call_tallies
        "f2" = 0) ∧
    ((bf_push_function "f2" (bf_push_function "f1" initialize_byfl)).func_call_tallies
        "f2 f1" = 1) ∧
    ((bf_push_function "f2" (bf_push_function "f1" initialize_byfl)).func_call_tallies
        "f1" = 1) := by
  refine ⟨by decide, by decide, by decide⟩

/-- C6 amended: each `bf_push_function` call adds exactly one to the tally
of the combined attribution key returned by `push_function` (which equals
the bare function name exactly when the call stack was empty) and leaves
every other tally unchanged — the bare name is merely ensured present with
`+= 0`; `bf_incr_func_tally` bumps the interned bare name by exactly one
per call and changes no other tally; consequently every invocation tally is
monotonically non-decreasing over any run. -/
theorem C6_invocation_tally_amended :
    (∀ (s : EngineState) (funcname n : String),
        (bf_push_function funcname s).func_call_tallies n =
          s.func_call_tallies n +
            (if n = (s.call_stack.push_function funcname).1 then 1 else 0)) ∧
    (∀ (max_depth : Nat) (funcname : String),
        (CallStack.push_function ⟨[], max_depth⟩ funcname).1 = funcname) ∧
    (∀ (s : EngineState) (funcname n : String),
        (bf_incr_func_tally funcname s).func_call_tallies n =
          s.func_call_tallies n + (if n = funcname then 1 else 0)) ∧
    (∀ (hook : Option String) (evs : List EngineEvent) (s : EngineState)
        (n : String),
        match engine_run hook evs s with
        | none => True
        | some s2 => s.func_call_tallies n ≤ s2.func_call_tallies n) := by
  refine ⟨?_, ?_, ?_, ?_⟩
  · intro s funcname n
    simp only [bf_push_function]
    split <;> simp_all
  · intro max_depth funcname
    rfl
  · intro s funcname n
    simp only [bf_incr_func_tally, bf_string_to_symbol]
    split <;> simp_all
  · intro hook evs s n
    exact engine_run_tallies_mono hook evs s n

/-- One engine step preserves the partition-routing invariant when the
categorization hook constantly returns `tag`. -/
theorem engine_step_partition_invariant (tag : String) (ev : EngineEvent)
    (s s2 : EngineState) (h : engine_step (some tag) ev s = some s2)
    (hinv : (s.user_defined_totals = [] ∧ s.global_totals = ByteFlopCounters.zero) ∨
            s.user_defined_totals = [(tag, s.global_totals)]) :
    (s2.user_defined_totals = [] ∧ s2.global_totals = ByteFlopCounters.zero) ∨
    s2.user_defined_totals = [(tag, s2.global_totals)] := by
  cases ev with
  | push_bb =>
      injection h with h
      subst h
      exact hinv
  | pop_bb =>
      simp only [engine_step, bf_pop_basic_block] at h
      split at h
      · exact absurd h (by simp)
      · injection h with h
        subst h
        exact hinv
  | accum t e =>
      simp only [engine_step, bf_accumulate_bb_tallies, Option.map,
        bf_string_to_symbol] at h
      split at h
      · exact absurd h (by simp)
      · split at h
        · injection h with h
          subst h
          rcases hinv with ⟨hu, hg⟩ | hu
          · right
            simp [user_defined_update, hu, hg, List.lookup,
              ByteFlopCounters.zero_accumulate]
          · right
            simp [user_defined_update, hu, List.lookup]
        · injection h with h
          subst h
          exact hinv
  | reset_bb =>
      simp only [engine_step, bf_reset_bb_tallies] at h
      split at h
      · exact absurd h (by simp)
      · injection h with h
        subst h
        exact hinv
  | push_fn f =>
      injection h with h
      subst h
      exact hinv
  | pop_fn =>
      simp only [engine_step, bf_pop_function] at h
      cases hp : s.call_stack.pop_function with
      | none => rw [hp] at h; exact absurd h (by simp)
      | some r =>
          rw [hp] at h
          simp only [Option.map] at h
          injection h with h
          subst h
          exact hinv
  | incr_tally f =>
      injection h with h
      subst h
      exact hinv

/-- Over any run with the hook constantly `tag`, the partition-routing
invariant holds from any state satisfying it. -/
theorem engine_run_partition_invariant (tag : String) (evs : List EngineEvent) :
    ∀ s : EngineState,
      ((s.user_defined_totals = [] ∧ s.global_totals = ByteFlopCounters.zero) ∨
        s.user_defined_totals = [(tag, s.global_totals)]) →
      partition_route_invariant tag (engine_run (some tag) evs s) := by
  induction evs with
  | nil => intro s hinv; exact hinv
  | cons ev rest ih =>
      intro s hinv
      simp only [engine_run]
      cases hstep : engine_step (some tag) ev s with
      | none => simp only [Option.none_bind]; exact trivial
      | some s1 =>
          simp only [Option.some_bind]
          exact ih s1 (engine_step_partition_invariant tag ev s s1 hstep hinv)

/-- One engine step never touches the partition table when the hook is not
installed (returns null). -/
theorem engine_step_no_hook_user_defined (ev : EngineEvent) (s s2 : EngineState)
    (h : engine_step none ev s = some s2) :
    s2.user_defined_totals = s.user_defined_totals := by
  cases ev with
  | push_bb => injection h with h; subst h; rfl
  | pop_bb =>
      simp only [engine_step, bf_pop_basic_block] at h
      split at h
      · exact absurd h (by simp)
      · injection h with h; subst h; rfl
  | accum t e =>
      simp only [engine_step, bf_accumulate_bb_tallies, Option.map] at h
      split at h
      · exact absurd h (by simp)
      · split at h
        · injection h with h; subst h; rfl
        · injection h with h; subst h; rfl
  | reset_bb =>
      simp only [engine_step, bf_reset_bb_tallies] at h
      split at h
      · exact absurd h (by simp)
      · injection h with h; subst h; rfl
  | push_fn f => injection h with h; subst h; rfl
  | pop_fn =>
      simp only [engine_step, bf_pop_function] at h
      cases hp : s.call_stack.pop_function with
      | none => rw [hp] at h; exact absurd h (by simp)
      | some r =>
          rw [hp] at h
          simp only [Option.map] at h
          injection h with h; subst h; rfl
  | incr_tally f => injection h with h; subst h; rfl

/-- Without a hook no partition entry is ever created, over any run. -/
theorem engine_run_no_hook_no_partitions (evs : List EngineEvent) :
    ∀ s : EngineState, s.user_defined_totals = [] →
      match engine_run none evs s with
      | none => True
      | some s2 => s2.user_defined_totals = [] := by
  induction evs with
  | nil => intro s hu; exact hu
  | cons ev rest ih =>
      intro s hu
      simp only [engine_run]
      cases hstep : engine_step none ev s with
      | none => simp only [Option.none_bind]
      | some s1 =>
          simp only [Option.some_bind]
          exact ih s1 ((engine_step_no_hook_user_defined ev s s1 hstep).trans hu)

/-- C4: partition routing.  If the categorization hook returns the same tag
at every terminating basic block, then at every point of any run from the
initialized engine the accumulated counter set of that partition equals
GlobalTotals field by field (before the first terminating block there is no
entry and GlobalTotals is zero; afterwards the table holds exactly the one
entry, equal to GlobalTotals — nothing is routed elsewhere).  If no
categorization hook is installed (it returns null on every terminating
block), no partition entry is ever created. -/
theorem C4_partition_routing :
    (∀ (tag : String) (evs : List EngineEvent),
        partition_route_invariant tag (engine_run (some tag) evs initialize_byfl)) ∧
    (∀ evs : List EngineEvent,
        match engine_run none evs initialize_byfl with
        | none => True
        | some s => s.user_defined_totals = []) := by
  constructor
  · intro tag evs
    exact engine_run_partition_invariant tag evs initialize_byfl (Or.inl ⟨rfl, rfl⟩)
  · intro evs
    exact engine_run_no_hook_no_partitions evs initialize_byfl rfl

/-- A flush on a non-empty basic-block stack succeeds and preserves the
stack depth and the call stack. -/
theorem bf_accumulate_preserves_shape (hook : Option String) (t : ThreadTallies)
    (e : bb_end_t) (s : EngineState) (a : ByteFlopCounters)
    (l : List ByteFlopCounters) (hbt : s.bb_totals = a :: l) :
    ∃ s1, bf_accumulate_bb_tallies hook t e s = some s1 ∧
      s1.bb_totals.length = s.bb_totals.length ∧ s1.call_stack = s.call_stack := by
  cases e <;> cases hook <;>
    exact ⟨_, by simp [bf_accumulate_bb_tallies, hbt]; rfl, by simp [hbt], by rfl⟩

/-- Pushing a function name always grows the call stack by one. -/
theorem push_function_length (cs : CallStack) (f : String) :
    ((cs.push_function f).2).complete_call_stack.length
      = cs.complete_call_stack.length + 1 := by
  cases hc : cs.complete_call_stack with
  | nil => simp [CallStack.push_function, hc]
  | cons a l => simp [CallStack.push_function, hc]

/-- Under stack discipline (every pop preceded by a matching push), a run
of engine events never hits an undefined empty-stack access. -/
theorem engine_run_isSome_of_wellFormed (hook : Option String)
    (evs : List EngineEvent) :
    ∀ s : EngineState,
      wellFormedFrom s.bb_totals.length s.call_stack.complete_call_stack.length
        evs = true →
      (engine_run hook evs s).isSome = true := by
  induction evs with
  | nil => intro s _; rfl
  | cons ev rest ih =>
      intro s h
      cases ev with
      | push_bb =>
          simp only [wellFormedFrom] at h
          simp only [engine_run, engine_step, Option.some_bind]
          apply ih
          simpa [bf_push_basic_block] using h
      | pop_bb =>
          simp only [wellFormedFrom, Bool.and_eq_true, decide_eq_true_eq] at h
          obtain ⟨hpos, h⟩ := h
          cases hbt : s.bb_totals with
          | nil => rw [hbt] at hpos; simp at hpos
          | cons a l =>
              simp only [engine_run, engine_step, bf_pop_basic_block, hbt,
                Option.some_bind]
              apply ih
              rw [hbt] at h
              simpa using h
      | accum t e =>
          simp only [wellFormedFrom, Bool.and_eq_true, decide_eq_true_eq] at h
          obtain ⟨hpos, h⟩ := h
          cases hbt : s.bb_totals with
          | nil => rw [hbt] at hpos; simp at hpos
          | cons a l =>
              obtain ⟨s1, hs1, hlen, hcs⟩ :=
                bf_accumulate_preserves_shape hook t e s a l hbt
              simp only [engine_run, engine_step, hs1, Option.some_bind]
              apply ih
              rw [hlen, hcs]
              exact h
      | reset_bb =>
          simp only [wellFormedFrom, Bool.and_eq_true, decide_eq_true_eq] at h
          obtain ⟨hpos, h⟩ := h
          cases hbt : s.bb_totals with
          | nil => rw [hbt] at hpos; simp at hpos
          | cons a l =>
              simp only [engine_run, engine_step, bf_reset_bb_tallies, hbt,
                Option.some_bind]
              apply ih
              rw [hbt] at h
              simpa using h
      | push_fn f =>
          simp only [wellFormedFrom] at h
          simp only [engine_run, engine_step, Option.some_bind]
          apply ih
          simpa [bf_push_function, push_function_length] using h
      | pop_fn =>
          simp only [wellFormedFrom, Bool.and_eq_true, decide_eq_true_eq] at h
          obtain ⟨hpos, h⟩ := h
          cases hc : s.call_stack.complete_call_stack with
          | nil => rw [hc] at hpos; simp at hpos
          | cons a l =>
              cases l with
              | nil =>
                  simp only [engine_run, engine_step, bf_pop_function,
                    CallStack.pop_function, hc, Option.map, Option.some_bind]
                  apply ih
                  rw [hc] at h
                  simpa using h
              | cons b l2 =>
                  simp only [engine_run, engine_step, bf_pop_function,
                    CallStack.pop_function, hc, Option.map, Option.some_bind]
                  apply ih
                  rw [hc] at h
                  simpa using h
      | incr_tally f =>
          simp only [wellFormedFrom] at h
          simp only [engine_run, engine_step, Option.some_bind]
          apply ih
          simpa [bf_incr_func_tally] using h

/-- C10: the operations that read or remove the top of a per-thread stack —
`bf_pop_basic_block`, `bf_accumulate_bb_tallies`, `bf_reset_bb_tallies` and
`CallStack::pop_function` — are undefined (`none` in the embedding) on an
empty stack; and under the precondition that every pop is preceded by a
matching push (with `initialize_byfl` pushing the first basic-block frame),
a run never reaches that empty-stack branch. -/
theorem C10_stack_discipline :
    (∀ s : EngineState, bf_pop_basic_block { s with bb_totals := [] } = none) ∧
    (∀ (hook : Option String) (t : ThreadTallies) (e : bb_end_t)
        (s : EngineState),
        bf_accumulate_bb_tallies hook t e { s with bb_totals := [] } = none) ∧
    (∀ s : EngineState, bf_reset_bb_tallies { s with bb_totals := [] } = none) ∧
    (∀ max_depth : Nat, CallStack.pop_function ⟨[], max_depth⟩ = none) ∧
    (∀ (hook : Option String) (evs : List EngineEvent),
        wellFormedFrom 1 0 evs = true →
        (engine_run hook evs initialize_byfl).isSome = true) := by
  refine ⟨fun s => rfl, fun hook t e s => rfl, fun s => rfl, fun md => rfl, ?_⟩
  intro hook evs h
  exact engine_run_isSome_of_wellFormed hook evs initialize_byfl h

theorem split_first_eq_of_not_mem (v : List Char) (h : '=' ∉ v) :
    split_first_eq v = none := by
  induction v with
  | nil => rfl
  | cons c rest ih =>
      simp only [List.mem_cons, not_or] at h
      obtain ⟨h1, h2⟩ := h
      simp only [split_first_eq]
      rw [if_neg (fun hc => h1 hc.symm), ih h2]
      rfl

theorem split_first_eq_append (var val : List Char) (h : '=' ∉ var) :
    split_first_eq (var ++ '=' :: val) = some (var, val) := by
  induction var with
  | nil => simp [split_first_eq]
  | cons c rest ih =>
      simp only [List.mem_cons, not_or] at h
      obtain ⟨h1, h2⟩ := h
      show split_first_eq (c :: (rest ++ '=' :: val)) = some (c :: rest, val)
      simp only [split_first_eq]
      rw [if_neg (fun hc => h1 hc.symm), ih h2]
      rfl

/-- C9: output-suppression configuration.  If `BYFL_OUTPUT_IF` is unset,
output is shown.  If it is set but holds no `=`, the (first) output attempt
is a fatal configuration error: the process prints a diagnostic and exits
with status 1, before emitting any instrumentation output.  If it is set to
`VAR=VALUE` (first `=` splitting, `VAR` itself free of `=`), output is
shown exactly when `VAR`'s current value equals `VALUE` — an unset `VAR`
counting as the empty string — and suppressed otherwise. -/
theorem C9_output_suppression (getenv : List Char → Option (List Char)) :
    (getenv "BYFL_OUTPUT_IF".toList = none →
        suppress_output getenv = OutputDecision.SHOW) ∧
    (∀ value : List Char, getenv "BYFL_OUTPUT_IF".toList = some value →
        '=' ∉ value → suppress_output getenv = OutputDecision.FATAL) ∧
    (∀ output_var output_value : List Char,
        getenv "BYFL_OUTPUT_IF".toList = some (output_var ++ '=' :: output_value) →
        '=' ∉ output_var →
        ((suppress_output getenv = OutputDecision.SHOW ↔
            (getenv output_var).getD [] = output_value) ∧
         (suppress_output getenv = OutputDecision.SUPPRESS ↔
            (getenv output_var).getD [] ≠ output_value))) := by
  refine ⟨?_, ?_, ?_⟩
  · intro h
    simp only [suppress_output, h]
  · intro v hv hne
    simp only [suppress_output, hv, split_first_eq_of_not_mem v hne]
  · intro output_var output_value hv hne
    simp only [suppress_output, hv,
      split_first_eq_append output_var output_value hne]
    by_cases hac : output_value = (getenv output_var).getD []
    · subst hac
      simp
    · rw [if_neg hac]
      simp [hac, eq_comm]

/-- C9 witness: with `BYFL_OUTPUT_IF` set to `MYVAR=yes` and `MYVAR` set to
`yes`, output is shown. -/
theorem C9_output_suppression_witness :
    suppress_output
        (fun k =>
          if k = "BYFL_OUTPUT_IF".toList then
            some ("MYVAR".toList ++ '=' :: "yes".toList)
          else if k = "MYVAR".toList then some "yes".toList else none)
      = OutputDecision.SHOW :=
  (((C9_output_suppression
      (fun k =>
        if k = "BYFL_OUTPUT_IF".toList then
          some ("MYVAR".toList ++ '=' :: "yes".toList)
        else if k = "MYVAR".toList then some "yes".toList else none)).2.2
    "MYVAR".toList "yes".toList (by decide) (by decide)).1).mpr (by decide)

/-- Membership in a conditionally empty list. -/
theorem mem_ite_nil_iff {α : Type} {c : Prop} [Decidable c] {l : List α}
    {a : α} : (a ∈ if c then l else []) ↔ c ∧ a ∈ l := by
  split
  · rename_i hc; simp [hc]
  · rename_i hc; simp [hc]

/-- C3 counterexample: with loads = 1, stores = 0 and every feature flag
off, the summary prints the "bytes loaded per byte stored" ratio line even
though its denominator (bytes stored) is zero — this line is emitted
unconditionally by the source — refuting that every derived ratio line is
printed only when its denominator is strictly positive. -/
theorem C3_ratio_guard_counterexample :
    (("bytes loaded per byte stored", 0) ∈
      report_totals_ratio_lines false false false false
        { ByteFlopCounters.zero with loads := 1 } 0 0 0) ∧
    ¬ (∀ p ∈ report_totals_ratio_lines false false false false
          { ByteFlopCounters.zero with loads := 1 } 0 0 0, 0 < p.2) := by
  constructor
  · decide
  · intro h
    exact absurd (h ("bytes loaded per byte stored", 0) (by decide)) (by decide)

/-- C3 amended: every derived ratio line except the following is printed
only under a guard that is exactly its own denominator being strictly
positive: "bytes loaded per byte stored" is printed unconditionally, the
"bits per flop bit" and "unique bits per flop bit" lines are guarded by the
flop count (not by `fp_bits`), the "bits per integer op bit" and "unique
bits per integer op bit" lines by the op count (not by `op_bits`), and
"bytes per unique byte" only by the unique-bytes feature flag — so those
six can carry a zero denominator while every other ratio line cannot. -/
theorem C3_ratio_guard_amended (bf_all_ops bf_unique_bytes bf_vectors
    partition : Bool) (counter_totals : ByteFlopCounters)
    (vec_num_ops reuse_unique tally_unique : Nat) :
    ∀ p ∈ report_totals_ratio_lines bf_all_ops bf_unique_bytes bf_vectors
        partition counter_totals vec_num_ops reuse_unique tally_unique,
      p.1 ∉ ["bytes loaded per byte stored", "bits per flop bit",
             "bits per integer op bit", "unique bits per flop bit",
             "unique bits per integer op bit", "bytes per unique byte"] →
      0 < p.2 := by
  intro p hp hne
  simp only [List.mem_cons, List.not_mem_nil, or_false, not_or] at hne
  obtain ⟨hne1, hne2, hne3, hne4, hne5, hne6⟩ := hne
  simp only [report_totals_ratio_lines, mem_ite_nil_iff, List.mem_append,
    List.mem_cons, List.mem_singleton, List.not_mem_nil, or_false] at hp
  rcases hp with
    (((((((⟨hc, rfl | rfl⟩ | rfl) | ⟨ha, ⟨hl, rfl⟩ | ⟨hm, rfl⟩⟩) |
      ⟨hcb, (⟨hf, rfl⟩ | ⟨ho, rfl⟩) | ⟨hn, rfl⟩⟩) |
      ⟨hn, ⟨hf, rfl⟩ | ⟨ho, rfl⟩⟩) | ⟨hf, rfl | rfl⟩) | ⟨ho, rfl | rfl⟩) |
      ⟨hu, ⟨hf, rfl | rfl⟩ | ⟨ho, rfl | rfl⟩⟩) | ⟨hu, rfl⟩
  · exact hc.2
  · exact hc.2
  · exact absurd rfl hne1
  · exact hl
  · exact hm
  · exact hcb
  · exact hcb
  · exact hcb
  · exact hf
  · exact ho
  · exact hf
  · exact absurd rfl hne2
  · exact ho
  · exact absurd rfl hne3
  · exact hf
  · exact absurd rfl hne4
  · exact ho
  · exact absurd rfl hne5
  · exact absurd rfl hne6

/-- C3 witness: the amended guard statement at a concrete input — one
conditional branch and one flop — where the "flops per
conditional/indirect branch" line is printed with its positive
denominator. -/
theorem C3_ratio_guard_amended_witness :
    0 < (("flops per conditional/indirect branch",
        ({ ByteFlopCounters.zero with flops := 1, cond_brs := 1 }
          : ByteFlopCounters).cond_brs) : String × Nat).2 :=
  C3_ratio_guard_amended false false false false
    { ByteFlopCounters.zero with flops := 1, cond_brs := 1 } 0 0 0
    ("flops per conditional/indirect branch",
      ({ ByteFlopCounters.zero with flops := 1, cond_brs := 1 }
        : ByteFlopCounters).cond_brs)
    (by decide) (by decide)

theorem sumCounters_nil : sumCounters [] = ByteFlopCounters.zero := rfl

theorem sumCounters_cons (a : ByteFlopCounters) (l : List ByteFlopCounters) :
    sumCounters (a :: l) = a.accumulate (sumCounters l) := rfl

/-- Decimation bookkeeping: over any run, the previously-reported snapshot
equals the starting snapshot plus the sum of all deltas emitted during the
run, and it never exceeds the global totals (so each emitted difference is
an exact subtraction). -/
theorem decim_run_prev_invariant (merge : Nat) (evs : List ByteFlopCounters) :
    ∀ s : EngineState,
      ByteFlopCounters.le s.prev_global_totals s.global_totals →
      ((decim_run merge evs s).1.prev_global_totals =
        s.prev_global_totals.accumulate (sumCounters (decim_run merge evs s).2)) ∧
      ByteFlopCounters.le (decim_run merge evs s).1.prev_global_totals
        (decim_run merge evs s).1.global_totals := by
  induction evs with
  | nil =>
      intro s h
      exact ⟨(ByteFlopCounters.accumulate_zero _).symm, h⟩
  | cons bb rest ih =>
      intro s h
      have hle1 : ByteFlopCounters.le s.prev_global_totals
          (s.global_totals.accumulate bb) :=
        ByteFlopCounters.le_accumulate_right _ _ _ h
      by_cases hm : s.num_merged + 1 ≥ merge
      · obtain ⟨ih1, ih2⟩ := ih
          { s with global_totals := s.global_totals.accumulate bb,
                   showed_header := true, num_merged := 0,
                   prev_global_totals := s.global_totals.accumulate bb }
          (ByteFlopCounters.le_refl _)
        simp only [decim_run, bf_report_bb_tallies, Bool.false_eq_true, if_false,
          hm, if_true, Option.toList_some, List.cons_append, List.nil_append] at ih1 ih2 ⊢
        refine ⟨?_, ih2⟩
        rw [sumCounters_cons, ← ByteFlopCounters.accumulate_assoc,
          ByteFlopCounters.accumulate_difference_cancel
            (s.global_totals.accumulate bb) s.prev_global_totals hle1]
        exact ih1
      · obtain ⟨ih1, ih2⟩ := ih
          { s with global_totals := s.global_totals.accumulate bb,
                   showed_header := true, num_merged := s.num_merged + 1 }
          hle1
        simp only [decim_run, bf_report_bb_tallies, Bool.false_eq_true, if_false,
          hm, Option.toList_none, List.nil_append] at ih1 ih2 ⊢
        exact ⟨ih1, ih2⟩

/-- C1: decimator emission.  With output not suppressed, a call to
`bf_report_bb_tallies` whose incremented merge count reaches the window
size `bf_bb_merge` emits exactly one record equal to GlobalTotals minus
PreviousGlobalTotals field by field, resets the merge count to zero and
copies GlobalTotals into PreviousGlobalTotals, leaving GlobalTotals itself
unchanged; a call below the window emits nothing and leaves
PreviousGlobalTotals (and GlobalTotals) unchanged, only incrementing the
count.  Moreover, over any run of terminated basic blocks from the
initialized engine, the sum of all emitted deltas equals the
previously-reported snapshot — so right after an emission it equals
GlobalTotals minus the (zero) initial totals — and the snapshot never
exceeds GlobalTotals, making every emitted difference exact. -/
theorem C1_decimator_emission :
    (∀ (bf_bb_merge : Nat) (s : EngineState),
        s.num_merged + 1 ≥ bf_bb_merge →
        bf_report_bb_tallies false bf_bb_merge s =
          ({ s with showed_header := true, num_merged := 0,
                    prev_global_totals := s.global_totals },
           some (s.global_totals.difference s.prev_global_totals))) ∧
    (∀ (bf_bb_merge : Nat) (s : EngineState),
        s.num_merged + 1 < bf_bb_merge →
        bf_report_bb_tallies false bf_bb_merge s =
          ({ s with showed_header := true, num_merged := s.num_merged + 1 },
           none)) ∧
    (∀ (bf_bb_merge : Nat) (evs : List ByteFlopCounters),
        sumCounters (decim_run bf_bb_merge evs initialize_byfl).2 =
          (decim_run bf_bb_merge evs initialize_byfl).1.prev_global_totals ∧
        ByteFlopCounters.le
          (decim_run bf_bb_merge evs initialize_byfl).1.prev_global_totals
          (decim_run bf_bb_merge evs initialize_byfl).1.global_totals) := by
  refine ⟨?_, ?_, ?_⟩
  · intro merge s hm
    simp [bf_report_bb_tallies, hm]
  · intro merge s hm
    have hm2 : ¬ (s.num_merged + 1 ≥ merge) := by omega
    simp [bf_report_bb_tallies, hm2]
  · intro merge evs
    obtain ⟨h1, h2⟩ := decim_run_prev_invariant merge evs initialize_byfl
      (ByteFlopCounters.le_refl _)
    refine ⟨?_, h2⟩
    have h0 : initialize_byfl.prev_global_totals = ByteFlopCounters.zero := rfl
    rw [h0] at h1
    rw [h1, ByteFlopCounters.zero_accumulate]

/-- C1 witness: at window size 1 the first call emits the one delta record
and resets the count; at window size 2 the first call emits nothing and
only increments the count. -/
theorem C1_decimator_emission_witness :
    (bf_report_bb_tallies false 1 initialize_byfl =
      ({ initialize_byfl with showed_header := true, num_merged := 0,
                              prev_global_totals := initialize_byfl.global_totals },
       some (initialize_byfl.global_totals.difference
         initialize_byfl.prev_global_totals))) ∧
    (bf_report_bb_tallies false 2 initialize_byfl =
      ({ initialize_byfl with showed_header := true, num_merged := 1 }, none)) :=
  ⟨C1_decimator_emission.1 1 initialize_byfl (by decide),
   C1_decimator_emission.2.1 2 initialize_byfl (by decide)⟩

/-- C10 witness: a concrete well-formed event sequence — a flush, a
basic-block push, a function push and pop, a basic-block pop, and a reset —
runs to completion from the initialized engine. -/
theorem C10_stack_discipline_witness :
    wellFormedFrom 1 0
        [EngineEvent.accum ThreadTallies.zero bb_end_t.BB_END_UNCOND,
         EngineEvent.push_bb, EngineEvent.push_fn "f", EngineEvent.pop_fn,
         EngineEvent.pop_bb, EngineEvent.reset_bb] = true ∧
    (engine_run none
        [EngineEvent.accum ThreadTallies.zero bb_end_t.BB_END_UNCOND,
         EngineEvent.push_bb, EngineEvent.push_fn "f", EngineEvent.pop_fn,
         EngineEvent.pop_bb, EngineEvent.reset_bb]
        initialize_byfl).isSome = true :=
  ⟨by decide,
   C10_stack_discipline.2.2.2.2 none
     [EngineEvent.accum ThreadTallies.zero bb_end_t.BB_END_UNCOND,
      EngineEvent.push_bb, EngineEvent.push_fn "f", EngineEvent.pop_fn,
      EngineEvent.pop_bb, EngineEvent.reset_bb] (by decide)⟩

end Byfl
